import Mathlib

/-!
Verification of the Manga-translator browser client.

The development shallowly embeds the three JavaScript source variants:

* `Main` — `src/main.js`, the non-session retry variant: `fetchWithRetry`,
  the batch-upload loop `processFiles`, the newline-delimited-JSON streaming
  ingestion loop attached to `processNhentaiBtn.onclick`, and the overlay
  viewer (zoom + index navigation).
* `Sv` — `src/unnamed/part_001`, the session-aware variant of
  `fetchWithRetry` (session handshake, 403 session-expiry recovery, the
  405/429 throw branches).

Network interaction is modelled by oracles: `oracle i` is the outcome of the
underlying `fetch` on loop iteration `i` (a response with a status code, an
abort/timeout, or a thrown network error), and for the session variant
`hOr k` is the outcome of the k-th session handshake.  Side effects
(backoff waits, handshakes, DOM appends, console warnings) are recorded as
explicit event lists.  JavaScript strings are modelled as `List Char` where
character-level splitting matters (the stream buffer), and zoom arithmetic
is modelled over `ℚ` (the clamping logic only uses `+`, `-`, `min`, `max`
and division, so rationals faithfully represent the intended real-number
semantics of the constants 0.05, 0.1, 0.2, 0.5, 1.0, 1.5, 2.0).
-/

namespace Main

/-- Outcome of one underlying `fetch` call inside `fetchWithRetry`
(`src/main.js` lines 16-59): a response with an HTTP status, an
`AbortError` from the 180 s timeout controller, or another thrown
network error with a message. -/
inductive Attempt where
| resp (status : Nat)
| abortErr
| netErr (msg : String)
deriving Repr, DecidableEq

/-- Result of `fetchWithRetry`: the returned response, the thrown
timeout error, the thrown `Failed after N attempts` error, or the
`undefined` value produced if the `for` loop were to fall through. -/
inductive FetchOut where
| resp (status : Nat)
| timeoutErr
| failedErr (attempts : Nat) (msg : String)
| undef
deriving Repr, DecidableEq

/-- `const MAX_RETRIES = 3` (src/main.js line 8). -/
def MAX_RETRIES : Nat := 3

/-- `const RETRY_DELAY = 3000` (src/main.js line 9), in milliseconds. -/
def RETRY_DELAY : Nat := 3000

/-- `response.ok`: true exactly for 2xx statuses. -/
abbrev respOk (status : Nat) : Prop := 200 ≤ status ∧ status < 300

/-- The body of `fetchWithRetry`'s `for (let i = 0; i <= retries; i++)` loop
(src/main.js lines 16-59).  `fuel` counts the remaining loop iterations
(`retries + 1 - i` at the top-level call); `i` is the loop counter.  The
second component of the result is the list of backoff waits performed, in
order, each `RETRY_DELAY * (i + 1)` ms.

Per iteration, translated from the source:
* response: `if (response.ok || (response.status !== 503 && i === retries))
  return response;` then `if (response.status === 503 && i < retries)` emit a
  status update, wait `RETRY_DELAY * (i + 1)` and continue; otherwise
  `return response`.
* `AbortError`: rethrown as the timeout error on the last iteration,
  otherwise a status update, the same wait, and continue.
* other thrown errors: wrapped in `Failed after retries+1 attempts` on the
  last iteration, otherwise a status update, the same wait, and continue. -/
def fetchAux (oracle : Nat → Attempt) (retries : Nat) :
    Nat → Nat → FetchOut × List Nat
| 0, _ => (.undef, [])
| fuel + 1, i =>
  match oracle i with
  | .resp s =>
    if respOk s ∨ (s ≠ 503 ∧ i = retries) then (.resp s, [])
    else if s = 503 ∧ i < retries then
      let r := fetchAux oracle retries fuel (i + 1)
      (r.1, RETRY_DELAY * (i + 1) :: r.2)
    else (.resp s, [])
  | .abortErr =>
    if i = retries then (.timeoutErr, [])
    else
      let r := fetchAux oracle retries fuel (i + 1)
      (r.1, RETRY_DELAY * (i + 1) :: r.2)
  | .netErr msg =>
    if i = retries then (.failedErr (retries + 1) msg, [])
    else
      let r := fetchAux oracle retries fuel (i + 1)
      (r.1, RETRY_DELAY * (i + 1) :: r.2)

/-- `async function fetchWithRetry(url, options, retries = MAX_RETRIES)`:
runs the loop for `i = 0 .. retries`. -/
def fetchWithRetry (oracle : Nat → Attempt) (retries : Nat) : FetchOut × List Nat :=
  fetchAux oracle retries (retries + 1) 0

/-- Helper for C10: whenever the loop still has an iteration to run and the
fuel is exact (`i + fuel = retries + 1`, as at the top-level call), the loop
terminates by a `return` or a `throw`, never by falling through. -/
theorem fetchAux_ne_undef (oracle : Nat → Attempt) (retries : Nat) :
    ∀ fuel i, 0 < fuel → i + fuel = retries + 1 →
      (fetchAux oracle retries fuel i).1 ≠ .undef := by
  intro fuel
  induction fuel with
  | zero => intro i h; omega
  | succ f ih =>
    intro i _ hfe
    have hle : i ≤ retries := by omega
    cases ho : oracle i with
    | resp s =>
      by_cases h1 : respOk s ∨ (s ≠ 503 ∧ i = retries)
      · simp [fetchAux, ho, h1]
      · by_cases h2 : s = 503 ∧ i < retries
        · obtain ⟨rfl, hlt⟩ := h2
          have hf : 0 < f := by omega
          have hne := ih (i + 1) hf (by omega)
          simp [fetchAux, ho, respOk, hlt, hne]
        · simp [fetchAux, ho, h1, h2]
    | abortErr =>
      by_cases h1 : i = retries
      · subst h1; simp [fetchAux, ho]
      · have hf : 0 < f := by omega
        have hne := ih (i + 1) hf (by omega)
        simp [fetchAux, ho, h1, hne]
    | netErr m =>
      by_cases h1 : i = retries
      · subst h1; simp [fetchAux, ho]
      · have hf : 0 < f := by omega
        have hne := ih (i + 1) hf (by omega)
        simp [fetchAux, ho, h1, hne]

/-- Claim C1: with `retries = 3`, if the first two fetch attempts return
HTTP 503 and the third returns HTTP 200, then `fetchWithRetry` returns the
200 response and performs exactly two backoff waits, of durations
`RETRY_DELAY * 1` and `RETRY_DELAY * 2` (3000 ms and 6000 ms). -/
theorem c1_retry_503_503_200 (oracle : Nat → Attempt)
    (h0 : oracle 0 = .resp 503) (h1 : oracle 1 = .resp 503)
    (h2 : oracle 2 = .resp 200) :
    fetchWithRetry oracle 3 =
      (.resp 200, [RETRY_DELAY * 1, RETRY_DELAY * 2]) := by
  simp [fetchWithRetry, fetchAux, h0, h1, h2, respOk, RETRY_DELAY]

/-- Concrete witness for C1: an oracle that answers 503, 503, 200. -/
def oracleC1 : Nat → Attempt := fun i => if i ≤ 1 then .resp 503 else .resp 200

theorem c1_retry_503_503_200_witness :
    fetchWithRetry oracleC1 3 = (.resp 200, [3000, 6000]) := by
  have := c1_retry_503_503_200 oracleC1 (by decide) (by decide) (by decide)
  simpa [RETRY_DELAY] using this

/-- Claim C10: in the non-session variant, (a) any fetch attempt that yields
an HTTP response with status other than 503 — ok or not, with retries
remaining or not — makes the loop return that response immediately with no
further backoff waits, and (b) `fetchWithRetry` never falls through the
loop returning `undefined`: it always ends in a returned response or a
thrown error within the `retries + 1` iterations. -/
theorem c10_non503_immediate_no_fallthrough
    (oracle : Nat → Attempt) (retries : Nat) :
    (∀ fuel i s, oracle i = .resp s → s ≠ 503 →
        fetchAux oracle retries (fuel + 1) i = (.resp s, [])) ∧
    (fetchWithRetry oracle retries).1 ≠ .undef := by
  constructor
  · intro fuel i s ho hs
    by_cases h1 : respOk s ∨ (s ≠ 503 ∧ i = retries)
    · simp [fetchAux, ho, h1]
    · have h2 : ¬ (s = 503 ∧ i < retries) := by
        intro h; exact hs h.1
      simp [fetchAux, ho, h1, h2]
  · exact fetchAux_ne_undef oracle retries (retries + 1) 0 (by omega) (by omega)

/-- Concrete oracle for the C10 witness: every attempt yields HTTP 404. -/
def oracle404 : Nat → Attempt := fun _ => .resp 404

theorem c10_non503_immediate_no_fallthrough_witness :
    fetchWithRetry oracle404 3 = (.resp 404, []) ∧
    (fetchWithRetry oracle404 3).1 ≠ .undef := by
  refine ⟨?_, (c10_non503_immediate_no_fallthrough oracle404 3).2⟩
  exact (c10_non503_immediate_no_fallthrough oracle404 3).1 3 0 404 rfl (by decide)

/-! ### Streaming ingestion loop (src/main.js lines 488-563)

The stream body arrives in chunks; the loop keeps a string `buffer`, does
`buffer += decoder.decode(value)`, `const lines = buffer.split('\n')`,
`buffer = lines.pop()`, and handles each complete line.  Text is modelled at
the character level (`List Char`); `TextDecoder` with `stream: true` makes
byte-level UTF-8 chunk boundaries transparent at this level. -/

/-- `String.prototype.split(sep)` for a single-character separator:
always returns a non-empty list of the (possibly empty) parts. -/
def splitOnChar (c : Char) : List Char → List (List Char)
| [] => [[]]
| x :: xs =>
  if x = c then [] :: splitOnChar c xs
  else
    match splitOnChar c xs with
    | [] => [[x]]
    | l :: ls => (x :: l) :: ls

theorem splitOnChar_ne_nil (c : Char) (xs : List Char) : splitOnChar c xs ≠ [] := by
  cases xs with
  | nil => simp [splitOnChar]
  | cons x xs =>
    simp only [splitOnChar]
    split
    · simp
    · split <;> simp

/-- `getLastD` of a non-empty list ignores the fallback. -/
theorem getLastD_cons_eq {α : Type} (b : α) (t : List α) (d e : α) :
    (b :: t).getLastD d = (b :: t).getLastD e := rfl

/-- `getLastD` of an append whose right part is non-empty only looks at the
right part. -/
theorem getLastD_append_ne {α : Type} :
    ∀ (l1 : List α) (b : α) (t : List α) (d : α),
      (l1 ++ b :: t).getLastD d = (b :: t).getLastD d := by
  intro l1
  induction l1 with
  | nil => intro b t d; rfl
  | cons x xs ih =>
    intro b t d
    cases hcase : xs ++ b :: t with
    | nil => simp at hcase
    | cons y ys =>
      have h1 : ((x :: xs) ++ b :: t).getLastD d = (xs ++ b :: t).getLastD x := by
        rw [List.cons_append, hcase]; rfl
      rw [h1, ih, getLastD_cons_eq]

/-- Splitting a concatenation: the complete parts of `xs` survive unchanged,
and only the last (partial) part of `xs` interacts with `ys`.  This is the
heart of the buffering transparency of the stream loop. -/
theorem splitOnChar_append (c : Char) (xs ys : List Char) :
    splitOnChar c (xs ++ ys) =
      (splitOnChar c xs).dropLast ++
        splitOnChar c ((splitOnChar c xs).getLastD [] ++ ys) := by
  induction xs with
  | nil => simp [splitOnChar]
  | cons x xs ih =>
    by_cases hx : x = c
    · cases h : splitOnChar c xs with
      | nil => exact absurd h (splitOnChar_ne_nil c xs)
      | cons l ls =>
        have hd : (([] : List Char) :: l :: ls).dropLast = [] :: (l :: ls).dropLast :=
          List.dropLast_append_of_ne_nil [[]] (by simp)
        have hg : (([] : List Char) :: l :: ls).getLastD [] = (l :: ls).getLastD [] :=
          getLastD_append_ne [[]] l ls []
        calc splitOnChar c ((x :: xs) ++ ys)
            = [] :: splitOnChar c (xs ++ ys) := by
              simp [splitOnChar, hx]
          _ = [] :: ((l :: ls).dropLast ++
                splitOnChar c ((l :: ls).getLastD [] ++ ys)) := by
              rw [ih, h]
          _ = (splitOnChar c (x :: xs)).dropLast ++
                splitOnChar c ((splitOnChar c (x :: xs)).getLastD [] ++ ys) := by
              simp [splitOnChar, hx, h, hd, hg]
    · -- head is an ordinary character: it is glued onto the first part
      have hstep : ∀ zs : List Char, splitOnChar c (x :: zs) =
          match splitOnChar c zs with
          | [] => [[x]]
          | t :: ts => (x :: t) :: ts := by
        intro zs; simp [splitOnChar, hx]
      cases h : splitOnChar c xs with
      | nil => exact absurd h (splitOnChar_ne_nil c xs)
      | cons l ls =>
        cases ls with
        | nil =>
          -- `xs` has no separator: its only part is `l`
          have hxe : splitOnChar c (x :: xs) = [x :: l] := by
            rw [hstep, h]
          cases hTe : splitOnChar c (l ++ ys) with
          | nil => exact absurd hTe (splitOnChar_ne_nil c _)
          | cons t ts =>
            have hiys : splitOnChar c (xs ++ ys) = t :: ts := by
              rw [ih, h]
              simpa using hTe
            calc splitOnChar c ((x :: xs) ++ ys)
                = splitOnChar c (x :: (xs ++ ys)) := by rw [List.cons_append]
              _ = (x :: t) :: ts := by rw [hstep, hiys]
              _ = (splitOnChar c (x :: xs)).dropLast ++
                    splitOnChar c ((splitOnChar c (x :: xs)).getLastD [] ++ ys) := by
                  rw [hxe]
                  have hrhs : splitOnChar c (x :: (l ++ ys)) = (x :: t) :: ts := by
                    rw [hstep, hTe]
                  simp [hrhs]
        | cons m ms =>
          -- `xs` already has a complete first part `l`
          have hxe : splitOnChar c (x :: xs) = (x :: l) :: m :: ms := by
            rw [hstep, h]
          cases hTe : splitOnChar c ((m :: ms).getLastD [] ++ ys) with
          | nil => exact absurd hTe (splitOnChar_ne_nil c _)
          | cons t ts =>
            have hiys : splitOnChar c (xs ++ ys) =
                l :: ((m :: ms).dropLast ++ (t :: ts)) := by
              rw [ih, h]
              have h1 : (l :: m :: ms).dropLast = l :: (m :: ms).dropLast :=
                List.dropLast_append_of_ne_nil [l] (by simp)
              have h2 : (l :: m :: ms).getLastD [] = (m :: ms).getLastD [] :=
                getLastD_append_ne [l] m ms []
              rw [h1, h2, hTe]
              rfl
            have hgl : ((x :: l) :: m :: ms).getLastD [] = (m :: ms).getLastD [] :=
              getLastD_append_ne [x :: l] m ms []
            calc splitOnChar c ((x :: xs) ++ ys)
                = splitOnChar c (x :: (xs ++ ys)) := by rw [List.cons_append]
              _ = (x :: l) :: ((m :: ms).dropLast ++ (t :: ts)) := by
                  rw [hstep, hiys]
              _ = (splitOnChar c (x :: xs)).dropLast ++
                    splitOnChar c ((splitOnChar c (x :: xs)).getLastD [] ++ ys) := by
                  rw [hxe, hgl, hTe]
                  have h1 : ((x :: l) :: m :: ms).dropLast =
                      (x :: l) :: (m :: ms).dropLast :=
                    List.dropLast_append_of_ne_nil [x :: l] (by simp)
                  rw [h1]
                  rfl

/-- One stream event, decoded from one JSON line (the `data.type` tagged
union): `info` with title and `pages_to_process`, `result` with page,
image payload and server-supplied `progress`, `error` with page and
message, `complete`, or a well-formed JSON object of any other shape
(which the dispatch ignores). -/
inductive StreamMsg where
| info (title : String) (pagesToProcess : Nat)
| result (page : Nat) (image : String) (progress : Nat)
| errorMsg (page : Nat) (message : String)
| complete
| other
deriving Repr, DecidableEq

/-- The mutable locals of the stream loop: `galleryTitle`, `totalToProcess`,
plus the `overlayImages` entries appended by `result` events. -/
structure StreamSt where
  galleryTitle : String
  totalToProcess : Nat
  images : List String
deriving Repr, DecidableEq

/-- Observable side effects of handling one line. -/
inductive SEv where
| infoStatus (title : String) (total : Nat)
| appended (page : Nat) (image : String)
| progressBar (progress : Nat) (total : Nat)
| pageError (page : Nat) (message : String)
| completeStatus (total : Nat) (title : String)
| parseWarn
deriving Repr, DecidableEq

/-- `!line.trim()`: the line is empty or whitespace-only. -/
def isBlank (l : List Char) : Bool := l.all Char.isWhitespace

/-- Handling of one complete line (src/main.js lines 502-562):
skip blank lines; `JSON.parse` failure (modelled by `decode` returning
`none`) is caught and logged (`console.error`) without touching any state;
otherwise dispatch on `data.type`:
* `info` stores `galleryTitle` and `totalToProcess` and emits a status;
* `result` appends the image to `overlayImages` (result card + overlay
  registration) and updates the progress bar with the server-supplied
  `progress` over the stored `totalToProcess`;
* `error` logs and surfaces a non-fatal warning;
* `complete` emits the final status;
* any other type matches no branch and does nothing. -/
def lineStep (decode : List Char → Option StreamMsg) (st : StreamSt)
    (line : List Char) : StreamSt × List SEv :=
  if isBlank line then (st, [])
  else
    match decode line with
    | none => (st, [.parseWarn])
    | some (.info title pages) =>
        (⟨title, pages, st.images⟩, [.infoStatus title pages])
    | some (.result page image progress) =>
        (⟨st.galleryTitle, st.totalToProcess, st.images ++ [image]⟩,
         [.appended page image, .progressBar progress st.totalToProcess])
    | some (.errorMsg page message) => (st, [.pageError page message])
    | some .complete => (st, [.completeStatus st.totalToProcess st.galleryTitle])
    | some .other => (st, [])

/-- `for (const line of lines) ...`: handle the complete lines in order,
threading the state and collecting the events. -/
def processLines (decode : List Char → Option StreamMsg) :
    StreamSt → List (List Char) → StreamSt × List SEv
| st, [] => (st, [])
| st, l :: ls =>
  let r := lineStep decode st l
  let rest := processLines decode r.1 ls
  (rest.1, r.2 ++ rest.2)

theorem processLines_append (decode : List Char → Option StreamMsg)
    (st : StreamSt) (l1 l2 : List (List Char)) :
    processLines decode st (l1 ++ l2) =
      ((processLines decode (processLines decode st l1).1 l2).1,
       (processLines decode st l1).2 ++
         (processLines decode (processLines decode st l1).1 l2).2) := by
  induction l1 generalizing st with
  | nil => simp [processLines]
  | cons l ls ih => simp [processLines, ih]

/-- The accumulated state of the read loop: the partial-line `buffer`, the
stream locals, and the events emitted so far. -/
structure IngestSt where
  buffer : List Char
  st : StreamSt
  events : List SEv
deriving Repr, DecidableEq

/-- One iteration of `while (true) { ... reader.read() ... }` for one chunk:
`buffer += decoder.decode(value)`, split on newlines, `buffer = lines.pop()`
(the trailing partial line), and handle every complete line. -/
def chunkStep (decode : List Char → Option StreamMsg) (a : IngestSt)
    (chunk : List Char) : IngestSt :=
  let parts := splitOnChar '\n' (a.buffer ++ chunk)
  let r := processLines decode a.st parts.dropLast
  ⟨parts.getLastD [], r.1, a.events ++ r.2⟩

/-- Initial stream locals: `galleryTitle = ''`, `totalToProcess = 0`. -/
def stInit : StreamSt := ⟨"", 0, []⟩

/-- Loop entry state: empty buffer, no events yet. -/
def ingestInit : IngestSt := ⟨[], stInit, []⟩

/-- The whole read loop over a given sequence of chunks; when `done` fires
the loop breaks and the remaining `buffer` (a line never terminated by a
newline) is discarded unparsed. -/
def processChunks (decode : List Char → Option StreamMsg)
    (chunks : List (List Char)) : IngestSt :=
  chunks.foldl (chunkStep decode) ingestInit

/-- Processing two chunks in sequence is the same as processing their
concatenation: the buffer makes the chunk boundary invisible. -/
theorem chunkStep_comp (decode : List Char → Option StreamMsg)
    (a : IngestSt) (c1 c2 : List Char) :
    chunkStep decode (chunkStep decode a c1) c2 =
      chunkStep decode a (c1 ++ c2) := by
  have hsplit := splitOnChar_append '\n' (a.buffer ++ c1) c2
  cases hQe : splitOnChar '\n'
      ((splitOnChar '\n' (a.buffer ++ c1)).getLastD [] ++ c2) with
  | nil => exact absurd hQe (splitOnChar_ne_nil _ _)
  | cons q qs =>
    have hdrop : ((splitOnChar '\n' (a.buffer ++ c1)).dropLast ++ q :: qs).dropLast =
        (splitOnChar '\n' (a.buffer ++ c1)).dropLast ++ (q :: qs).dropLast :=
      List.dropLast_append_of_ne_nil _ (by simp)
    have hlast : ((splitOnChar '\n' (a.buffer ++ c1)).dropLast ++ q :: qs).getLastD [] =
        (q :: qs).getLastD [] := getLastD_append_ne _ q qs []
    simp only [chunkStep, ← List.append_assoc, hsplit, hQe, hdrop, hlast,
      processLines_append]

theorem processChunks_cons_flatten (decode : List Char → Option StreamMsg) :
    ∀ (cs : List (List Char)) (c : List Char) (a : IngestSt),
      (c :: cs).foldl (chunkStep decode) a = chunkStep decode a (c :: cs).flatten := by
  intro cs
  induction cs with
  | nil => intro c a; simp [List.foldl]
  | cons d ds ih =>
    intro c a
    have h1 : (c :: d :: ds).foldl (chunkStep decode) a =
        (d :: ds).foldl (chunkStep decode) (chunkStep decode a c) := rfl
    rw [h1, ih d (chunkStep decode a c), chunkStep_comp]
    simp

/-- Claim C2: the stream-ingestion loop is chunking-invariant.  For every
way of splitting the byte sequence of newline-delimited JSON lines into
chunks — including splits in the middle of a line — the loop produces
exactly the same final state (and in particular the same ordered list of
parsed events) as when the same bytes arrive as one single chunk. -/
theorem c2_chunking_invariance (decode : List Char → Option StreamMsg)
    (chunks : List (List Char)) :
    processChunks decode chunks = processChunks decode [chunks.flatten] := by
  cases chunks with
  | nil =>
    have : chunkStep decode ingestInit [] = ingestInit := rfl
    simp [processChunks, List.foldl, this]
  | cons c cs =>
    have h2 : processChunks decode [(c :: cs).flatten] =
        chunkStep decode ingestInit (c :: cs).flatten := rfl
    rw [h2]
    exact processChunks_cons_flatten decode cs c ingestInit

/-- Claim C9: a malformed JSON line among otherwise valid lines.  For any
line `bad` that is not blank and fails to decode, processing
`xs ++ bad :: ys` yields exactly the events of `xs`, then a single logged
warning for the malformed line, then the events of `ys` computed from the
state left by `xs` — i.e. every valid line still produces its events in
order, the malformed line contributes only the warning and leaves the
state untouched, and the loop continues with the next line. -/
theorem c9_malformed_line_skipped (decode : List Char → Option StreamMsg)
    (st : StreamSt) (xs ys : List (List Char)) (bad : List Char)
    (hblank : isBlank bad = false) (hdec : decode bad = none) :
    processLines decode st (xs ++ bad :: ys) =
      ((processLines decode (processLines decode st xs).1 ys).1,
       (processLines decode st xs).2 ++
         SEv.parseWarn :: (processLines decode (processLines decode st xs).1 ys).2) := by
  rw [processLines_append]
  have hbad : lineStep decode (processLines decode st xs).1 bad =
      ((processLines decode st xs).1, [.parseWarn]) := by
    simp [lineStep, hblank, hdec]
  simp [processLines, hbad]

/-- Concrete decoder for the C9 witness: the line "c" decodes to a
`complete` event, everything else is malformed. -/
def c9Decode : List Char → Option StreamMsg :=
  fun l => if l = ['c'] then some .complete else none

theorem c9_malformed_line_skipped_witness :
    isBlank ['x'] = false ∧
    processLines c9Decode stInit [['c'], ['x'], ['c']] =
      (stInit, [SEv.completeStatus 0 "", SEv.parseWarn, SEv.completeStatus 0 ""]) := by
  constructor
  · decide
  · have h := c9_malformed_line_skipped c9Decode stInit [['c']] [['c']] ['x']
      (by decide) (by decide)
    have h2 : processLines c9Decode stInit [['c'], ['x'], ['c']] =
        processLines c9Decode stInit ([['c']] ++ ['x'] :: [['c']]) := rfl
    rw [h2, h]
    decide

/-! ### Batch upload loop (src/main.js lines 293-412)

`processFiles(files)` iterates `for (let i = 0; i < files.length; i++)`,
posting each file to `/process` and rendering the response.  The network
round trip for file `i` is modelled by `oracle i`. -/

/-- Outcome of the round trip for one file:
* `thrown` — `fetchWithRetry` (or `res.json()` on the error path) threw;
  the `catch` logs and the loop continues;
* `notOk` — a response with `res.ok` false; the failure status is shown and
  the loop continues (`continue`);
* `okBadJson` — an OK response whose body fails to parse in `res.json()`;
  the thrown parse error is caught by the same `catch`;
* `okJson d` — an OK response with parsed body; `d` is `result_image` if
  present. -/
inductive UpOutcome where
| thrown (msg : String)
| notOk (status : Nat) (detail : Option String)
| okBadJson
| okJson (resultImage : Option String)
deriving Repr, DecidableEq

/-- One iteration of the upload loop for file index `i`.  The first
component accumulates the trace of upload attempts (one entry per executed
iteration, in execution order); the second accumulates the rendered result
entries (`Image i+1` label and the image), which are appended only when the
response is OK and carries a `result_image`. -/
def uploadStep (oracle : Nat → UpOutcome) (acc : List Nat × List (Nat × String))
    (i : Nat) : List Nat × List (Nat × String) :=
  (acc.1 ++ [i],
   match oracle i with
   | .okJson (some img) => acc.2 ++ [(i, img)]
   | _ => acc.2)

/-- The whole loop of `processFiles` over `n` files. -/
def runBatch (oracle : Nat → UpOutcome) (n : Nat) :
    List Nat × List (Nat × String) :=
  (List.range n).foldl (uploadStep oracle) ([], [])

/-- The result entry contributed by file `i`, if any. -/
def batchEntry (oracle : Nat → UpOutcome) (i : Nat) : Option (Nat × String) :=
  match oracle i with
  | .okJson (some img) => some (i, img)
  | _ => none

theorem uploadStep_eq (oracle : Nat → UpOutcome)
    (acc : List Nat × List (Nat × String)) (i : Nat) :
    uploadStep oracle acc i =
      (acc.1 ++ [i], acc.2 ++ (batchEntry oracle i).toList) := by
  cases h : oracle i with
  | okJson d => cases d <;> simp [uploadStep, batchEntry, h]
  | thrown m => simp [uploadStep, batchEntry, h]
  | notOk st d => simp [uploadStep, batchEntry, h]
  | okBadJson => simp [uploadStep, batchEntry, h]

theorem runBatch_go (oracle : Nat → UpOutcome) :
    ∀ (l : List Nat) (acc : List Nat × List (Nat × String)),
      l.foldl (uploadStep oracle) acc =
        (acc.1 ++ l, acc.2 ++ l.filterMap (batchEntry oracle)) := by
  intro l
  induction l with
  | nil => intro acc; simp
  | cons x xs ih =>
    intro acc
    rw [List.foldl_cons, ih, uploadStep_eq]
    cases h : batchEntry oracle x <;> simp [h, List.filterMap_cons]

/-- Claim C3: for every batch of `n` files, the upload loop performs exactly
`n` attempts, one per file, in index order (attempt `i+1` only after attempt
`i` is fully handled — the trace is exactly `[0, 1, ..., n-1]` regardless of
any per-file failures); the final result list consists, in order, of exactly
the entries of the files whose response was OK and carried a `result_image`
(so a non-OK response or a thrown error for file `i` never prevents the
attempt for file `i+1`); and processing one more file only appends to the
previous results — entries already produced are never removed. -/
theorem c3_batch_sequential_isolated (oracle : Nat → UpOutcome) (n : Nat) :
    (runBatch oracle n).1 = List.range n ∧
    (runBatch oracle n).2 = (List.range n).filterMap (batchEntry oracle) ∧
    (∀ m : Nat, (runBatch oracle (m + 1)).2 =
      (runBatch oracle m).2 ++ (batchEntry oracle m).toList) := by
  refine ⟨?_, ?_, ?_⟩
  · rw [runBatch, runBatch_go]; simp
  · rw [runBatch, runBatch_go]; simp
  · intro m
    rw [runBatch, runBatch, runBatch_go, runBatch_go, List.range_succ]
    cases h : batchEntry oracle m <;> simp [h]

/-! ### Re-entrancy guard: the shared `isProcessing` busy flag
(src/main.js lines 293-298 and 425-431)

Both `processFiles` and the stream handler begin with
`if (isProcessing) { alert("Already processing! Please wait..."); return; }`,
set `isProcessing = true` before doing anything else, and reset it to
`false` when the operation finishes (in a `finally` for the stream
handler).  A rejected invocation returns immediately: nothing is queued and
no other state is touched. -/

/-- The page state shared by the two top-level operations. -/
structure AppState where
  isProcessing : Bool
  overlayImages : List String
deriving Repr, DecidableEq

/-- How an invocation of a top-level operation ended. -/
inductive InvokeOutcome where
| rejectedBusy
| rejectedNoUrl
| ran
deriving Repr, DecidableEq

/-- `processFiles(files)` as a whole-run state transformer: rejected with
the busy alert if the flag is set; otherwise the flag is raised, the UI and
`overlayImages` are reset, the loop runs to completion, and the flag is
released. -/
def processFilesOp (oracle : Nat → UpOutcome) (n : Nat) (st : AppState) :
    AppState × InvokeOutcome :=
  if st.isProcessing then (st, .rejectedBusy)
  else (⟨false, (runBatch oracle n).2.map (fun e => e.2)⟩, .ran)

/-- `processNhentaiBtn.onclick` as a whole-run state transformer: rejected
with the busy alert if the flag is set; rejected (without touching the
flag) on an empty URL; otherwise, whether the initial response is OK and
the stream is consumed, or the initial response is non-OK / the connection
throws, the `finally` clause releases the flag. -/
def nhentaiOp (decode : List Char → Option StreamMsg) (url : String)
    (initialOk : Bool) (chunks : List (List Char)) (st : AppState) :
    AppState × InvokeOutcome :=
  if st.isProcessing then (st, .rejectedBusy)
  else if url.trim = "" then (st, .rejectedNoUrl)
  else if initialOk then (⟨false, (processChunks decode chunks).st.images⟩, .ran)
  else (⟨false, []⟩, .ran)

/-- Claim C8: while either top-level operation is in flight (the shared
`isProcessing` flag is set), invoking the upload action — or the stream
action — is rejected with the user-facing busy warning: the invocation
returns the state unchanged (nothing about the in-flight operation is
modified and nothing is queued).  And whenever an operation actually runs
(flag initially clear), the flag is `false` again when it finishes. -/
theorem c8_busy_flag_serializes (oracle : Nat → UpOutcome) (n : Nat)
    (decode : List Char → Option StreamMsg) (url : String) (initialOk : Bool)
    (chunks : List (List Char)) (st st' : AppState)
    (hbusy : st.isProcessing = true) (hidle : st'.isProcessing = false) :
    (processFilesOp oracle n st = (st, .rejectedBusy) ∧
     nhentaiOp decode url initialOk chunks st = (st, .rejectedBusy)) ∧
    ((processFilesOp oracle n st').1.isProcessing = false ∧
     (nhentaiOp decode url initialOk chunks st').1.isProcessing = false) := by
  refine ⟨⟨?_, ?_⟩, ?_, ?_⟩
  · simp [processFilesOp, hbusy]
  · simp [nhentaiOp, hbusy]
  · simp only [processFilesOp, hidle]
    simp
  · simp only [nhentaiOp, hidle]
    by_cases hu : url.trim = "" <;> by_cases hok : initialOk <;>
      simp [hu, hok, hidle]

theorem c8_busy_flag_serializes_witness :
    (processFilesOp (fun _ => .okJson none) 1 ⟨true, []⟩ =
       (⟨true, []⟩, .rejectedBusy) ∧
     nhentaiOp c9Decode "u" true [] ⟨true, []⟩ = (⟨true, []⟩, .rejectedBusy)) ∧
    ((processFilesOp (fun _ => .okJson none) 1 ⟨false, []⟩).1.isProcessing = false ∧
     (nhentaiOp c9Decode "u" true [] ⟨false, []⟩).1.isProcessing = false) :=
  c8_busy_flag_serializes (fun _ => .okJson none) 1 c9Decode "u" true []
    ⟨true, []⟩ ⟨false, []⟩ rfl rfl

/-! ### Overlay viewer: current index and navigation
(src/main.js lines 173-242)

`openOverlay(index)` sets `currentIndex = index` and shows the overlay;
`showPrev`/`showNext` move the index by one within bounds.  None of these
operations changes `overlayImages`; in the code `openOverlay` is only ever
invoked as `openOverlay(overlayImages.indexOf(img))` for an `img` that was
pushed into `overlayImages`, so its argument is always a valid index. -/

/-- Overlay viewer state: the length of `overlayImages`, `currentIndex`,
and whether `overlay.style.display === "block"`. -/
structure OverlaySt where
  len : Nat
  current : Nat
  isOpen : Bool
deriving Repr, DecidableEq

/-- The three index-changing operations of the viewer. -/
inductive OvOp where
| openOv (i : Nat)
| next
| prev
deriving Repr, DecidableEq

/-- Transitions, translated from the source:
* `openOverlay(i)`: `currentIndex = index`, overlay shown;
* `showNext`: `if (currentIndex < overlayImages.length - 1) currentIndex++`
  (JavaScript arithmetic: the comparison is over integers, so with an empty
  list the bound is `-1`);
* `showPrev`: `if (currentIndex > 0) currentIndex--`. -/
def ovStep (s : OverlaySt) : OvOp → OverlaySt
| .openOv i => ⟨s.len, i, true⟩
| .next =>
  if (s.current : Int) < (s.len : Int) - 1 then ⟨s.len, s.current + 1, s.isOpen⟩
  else s
| .prev =>
  if 0 < s.current then ⟨s.len, s.current - 1, s.isOpen⟩
  else s

/-- Validity of an operation as invoked by the code: `openOverlay` always
receives `overlayImages.indexOf(img)` of a pushed image, a valid index. -/
def opValid (len : Nat) : OvOp → Prop
| .openOv i => i < len
| .next => True
| .prev => True

/-- A sequence of viewer operations. -/
def ovRun (s : OverlaySt) (ops : List OvOp) : OverlaySt := ops.foldl ovStep s

theorem ovStep_len (s : OverlaySt) (op : OvOp) : (ovStep s op).len = s.len := by
  cases op <;> simp only [ovStep] <;> split <;> rfl

theorem ovStep_inv (s : OverlaySt) (op : OvOp)
    (h : s.isOpen = true → s.current < s.len) (hv : opValid s.len op) :
    (ovStep s op).isOpen = true → (ovStep s op).current < (ovStep s op).len := by
  cases op with
  | openOv i => intro _; simpa [ovStep] using hv
  | next =>
    by_cases hc : (s.current : Int) < (s.len : Int) - 1
    · intro _; simp only [ovStep, if_pos hc]; omega
    · simpa [ovStep, hc] using h
  | prev =>
    by_cases hc : 0 < s.current
    · simp only [ovStep, if_pos hc]
      intro ho
      have := h ho
      omega
    · simpa [ovStep, hc] using h

/-- Claim C5: starting from any state satisfying the overlay invariant
(`0 ≤ currentIndex < overlayImages.length` whenever the overlay is open,
the lower bound being automatic for a natural index), every sequence of
`openOverlay`/`next`/`prev` operations (each `openOverlay` called, as in
the code, with a valid index) preserves the invariant and leaves the image
list length unchanged; moreover `next` at the last index is a no-op (the
state is exactly unchanged) and `prev` at index 0 is a no-op. -/
theorem c5_overlay_index_invariant (s0 : OverlaySt) (ops : List OvOp)
    (hinv : s0.isOpen = true → s0.current < s0.len)
    (hv : ∀ op ∈ ops, opValid s0.len op) :
    ((ovRun s0 ops).len = s0.len ∧
     ((ovRun s0 ops).isOpen = true → (ovRun s0 ops).current < (ovRun s0 ops).len)) ∧
    (∀ s : OverlaySt, s.current + 1 = s.len → ovStep s .next = s) ∧
    (∀ s : OverlaySt, s.current = 0 → ovStep s .prev = s) := by
  refine ⟨?_, ?_, ?_⟩
  · induction ops generalizing s0 with
    | nil => exact ⟨rfl, hinv⟩
    | cons op ops ih =>
      have hlen := ovStep_len s0 op
      have hstep := ovStep_inv s0 op hinv (hv op (by simp))
      have hv' : ∀ o ∈ ops, opValid (ovStep s0 op).len o := by
        intro o ho
        rw [hlen]
        exact hv o (by simp [ho])
      have := ih (ovStep s0 op) hstep hv'
      exact ⟨by rw [ovRun, List.foldl_cons, ← ovRun, this.1, hlen],
             by rw [ovRun, List.foldl_cons, ← ovRun]; exact this.2⟩
  · intro s hlast
    have hc : ¬ ((s.current : Int) < (s.len : Int) - 1) := by omega
    simp [ovStep, hc]
  · intro s h0
    simp [ovStep, h0]

theorem c5_overlay_index_invariant_witness :
    ((ovRun ⟨2, 0, false⟩ [.openOv 1, .next, .prev]).len = 2 ∧
     ((ovRun ⟨2, 0, false⟩ [.openOv 1, .next, .prev]).isOpen = true →
       (ovRun ⟨2, 0, false⟩ [.openOv 1, .next, .prev]).current <
         (ovRun ⟨2, 0, false⟩ [.openOv 1, .next, .prev]).len)) ∧
    (∀ s : OverlaySt, s.current + 1 = s.len → ovStep s .next = s) ∧
    (∀ s : OverlaySt, s.current = 0 → ovStep s .prev = s) :=
  c5_overlay_index_invariant ⟨2, 0, false⟩ [.openOv 1, .next, .prev]
    (by intro h; simp at h) (by intro op hop; fin_cases hop <;> simp [opValid])

/-! ### Overlay viewer: zoom adjustments
(src/main.js lines 249-287 and the fit-to-window computation in
`openOverlay`, lines 186-211)

Each handler clamps with its own constants:
* wheel: step 0.05, `zoom = Math.min(Math.max(zoom, 0.1), 1.0)`;
* keyboard `+`/`=`: `zoom = Math.min(zoom + 0.1, 2.0)`;
* keyboard `-`/`_`: `zoom = Math.max(zoom - 0.1, 0.5)`;
* keyboard `0` and double-click: `zoom = 1.5`;
* image-open fit: a width/height ratio fit when the image exceeds the
  available viewport, floored by `zoom = Math.max(zoom, 0.2)`. -/

/-- A zoom adjustment event. `openFit w h aw ah` is the fit computed in
`overlayImg.onload` from the natural image size `w × h` and the available
viewport `aw × ah` (`window.innerWidth - 100`, `window.innerHeight - 200`,
possibly negative for tiny windows, hence `ℚ` with sign). -/
inductive ZoomAdj where
| wheelUp
| wheelDown
| keyZoomIn
| keyZoomOut
| resetZoom
| openFit (w h aw ah : ℚ)

/-- The new zoom value produced by each handler, translated from the
source. -/
def applyZoomAdj : ZoomAdj → ℚ → ℚ
| .wheelUp, z => min (max (z + 1/20) (1/10)) 1
| .wheelDown, z => min (max (z - 1/20) (1/10)) 1
| .keyZoomIn, z => min (z + 1/10) 2
| .keyZoomOut, z => max (z - 1/10) (1/2)
| .resetZoom, _ => 3/2
| .openFit w h aw ah, _ =>
    max (if w > aw ∨ h > ah then min (aw / w) (ah / h) else 1) (1/5)

/-- Side condition for the fit computation: a loaded image has positive
natural dimensions (`naturalWidth`/`naturalHeight` of a displayable
image). -/
def fitOk : ZoomAdj → Prop
| .openFit w h _ _ => 0 < w ∧ 0 < h
| _ => True

/-- The two (min, max) clamp ranges configured in the viewer's handlers:
the wheel handler's `[0.1, 1.0]` and the keyboard handlers' `[0.5, 2.0]`. -/
def configuredZoomRanges : List (ℚ × ℚ) := [(1/10, 1), (1/2, 2)]

/-- Claim C4, formalised: there is a single configured `[min, max]` range of
the viewer such that, from any zoom value inside it, every adjustment
(satisfying the fit side condition) lands inside it again. -/
def zoomSingleRangeClaim : Prop :=
  ∃ r ∈ configuredZoomRanges, ∀ z : ℚ, r.1 ≤ z → z ≤ r.2 →
    ∀ adj : ZoomAdj, fitOk adj →
      r.1 ≤ applyZoomAdj adj z ∧ applyZoomAdj adj z ≤ r.2

/-- Counterexample to C4 as stated: no single configured range bounds all
adjustments.  For the wheel range `[0.1, 1.0]`, pressing `+` at zoom 1
yields 1.1 > 1; for the keyboard range `[0.5, 2.0]`, a wheel zoom-out at
zoom 0.5 yields 0.45 < 0.5. -/
theorem c4_single_range_counterexample : ¬ zoomSingleRangeClaim := by
  rintro ⟨r, hr, h⟩
  simp only [configuredZoomRanges, List.mem_cons, List.mem_singleton,
    List.not_mem_nil, or_false] at hr
  rcases hr with rfl | rfl
  · have h1 := (h 1 (by norm_num) (by norm_num) .keyZoomIn trivial).2
    rw [applyZoomAdj] at h1
    rw [min_def] at h1
    norm_num at h1
  · have h1 := (h (1/2) (by norm_num) (by norm_num) .wheelDown trivial).1
    rw [applyZoomAdj] at h1
    rw [max_def, min_def] at h1
    norm_num at h1

/-- Claim C4 amended: after any zoom adjustment — wheel tick, keyboard
`+`/`=`/`-`/`_`, reset via `0` or double-click, or fit-to-window on image
open — the zoom value lies within `[0.1, 2.0]`, the hull of the
per-handler configured ranges (the wheel's `[0.1, 1.0]`, the keyboard's
`[0.5, 2.0]`, the reset value 1.5 and the fit floor 0.2), provided it was
in that hull before the adjustment.  A single tighter configured range does
not exist (see the counterexample). -/
theorem c4_zoom_hull_invariant (adj : ZoomAdj) (z : ℚ) (hfit : fitOk adj)
    (hlo : 1/10 ≤ z) (hhi : z ≤ 2) :
    1/10 ≤ applyZoomAdj adj z ∧ applyZoomAdj adj z ≤ 2 := by
  cases adj with
  | wheelUp =>
    constructor
    · exact le_min (le_trans (by norm_num) (le_max_right _ _)) (by norm_num)
    · exact le_trans (min_le_right _ _) (by norm_num)
  | wheelDown =>
    constructor
    · exact le_min (le_trans (by norm_num) (le_max_right _ _)) (by norm_num)
    · exact le_trans (min_le_right _ _) (by norm_num)
  | keyZoomIn =>
    constructor
    · refine le_min ?_ (by norm_num)
      linarith
    · exact min_le_right _ _
  | keyZoomOut =>
    constructor
    · exact le_trans (by norm_num) (le_max_right _ _)
    · refine max_le ?_ (by norm_num)
      linarith
  | resetZoom => norm_num [applyZoomAdj]
  | openFit w h aw ah =>
    obtain ⟨hw, hh⟩ := hfit
    simp only [applyZoomAdj]
    constructor
    · exact le_trans (by norm_num) (le_max_right _ _)
    · refine max_le ?_ (by norm_num)
      by_cases hc : w > aw ∨ h > ah
      · rw [if_pos hc]
        rcases hc with hc | hc
        · refine le_trans (min_le_left _ _) ?_
          have : aw / w < 1 := (div_lt_one hw).mpr hc
          linarith
        · refine le_trans (min_le_right _ _) ?_
          have : ah / h < 1 := (div_lt_one hh).mpr hc
          linarith
      · rw [if_neg hc]
        norm_num

theorem c4_zoom_hull_invariant_witness :
    fitOk (ZoomAdj.openFit 3 4 2 2) ∧
    (1/10 : ℚ) ≤ 1 ∧ (1 : ℚ) ≤ 2 ∧
    (1/10 ≤ applyZoomAdj (ZoomAdj.openFit 3 4 2 2) 1 ∧
     applyZoomAdj (ZoomAdj.openFit 3 4 2 2) 1 ≤ 2) :=
  ⟨⟨by norm_num, by norm_num⟩, by norm_num, by norm_num,
   c4_zoom_hull_invariant (ZoomAdj.openFit 3 4 2 2) 1
     ⟨by norm_num, by norm_num⟩ (by norm_num) (by norm_num)⟩

end Main

namespace Sv

/-! ### Session-aware variant (`src/unnamed/part_001`)

`fetchWithRetry` here additionally: rejects `github.io` URLs before the
loop; ensures a session before the loop (for non-`/get-session` URLs);
inside the loop handles HTTP 403 with a session marker in the body
(clear the session, run `initSession`, `continue`), and has dedicated
`throw` branches for 405 and 429 — branches that sit *inside* the `try`
block, so the function's own `catch` intercepts them. -/

/-- `const MAX_RETRIES = 3` (part_001 line 6). -/
def MAX_RETRIES : Nat := 3

/-- `const RETRY_DELAY = 3000` (part_001 line 7). -/
def RETRY_DELAY : Nat := 3000

/-- The module-level session state: `sessionInitialized` and
`sessionToken`. -/
structure Sess where
  sessionInitialized : Bool
  sessionToken : Option String
deriving Repr, DecidableEq

/-- `initSession()` (part_001 lines 15-38): calls `/get-session`; on
success stores the token and marks the session initialized, returning
`true`; on failure leaves the state as it was and returns `false`.  The
k-th handshake's result is `hOr k` (`some token` on success). -/
def initSession (hOr : Nat → Option String) (k : Nat) (s : Sess) : Sess × Bool :=
  match hOr k with
  | some t => (⟨true, some t⟩, true)
  | none => (s, false)

/-- Outcome of one underlying `fetch` call: a response with an HTTP
status, whether its JSON body's `detail` contains the `'session'` marker
(`errorData.detail && errorData.detail.includes('session')`, false when
the body fails to parse), and the body's `detail` text; or a thrown
abort/network error. -/
inductive Attempt where
| resp (status : Nat) (sessionMarker : Bool) (detail : Option String)
| abortErr
| netErr (msg : String)
deriving Repr, DecidableEq

/-- Result of the session-aware `fetchWithRetry`. -/
inductive SOut where
| resp (status : Nat)
| timeoutErr
| failedErr (attempts : Nat) (msg : String)
| configErr (msg : String)
| undef
deriving Repr, DecidableEq

/-- Observable events of one call, in order: each executed fetch attempt
(with its loop index), each session handshake, each backoff wait (with
its duration in ms). -/
inductive Ev where
| fetched (i : Nat)
| handshake
| waited (ms : Nat)
deriving Repr, DecidableEq

/-- Result record of a run: outcome, event trace, final session state. -/
structure SvRet where
  out : SOut
  events : List Ev
  sess : Sess
deriving Repr, DecidableEq

/-- The message of the `throw` in the 405/429 branches (part_001 lines
110-117).  These throws are caught by the function's own `catch`, so the
message only matters if it were re-surfaced on the last iteration — which
cannot happen, because a non-503 response on the last iteration is
returned earlier. -/
def throwMsg (s : Nat) (detail : Option String) : String :=
  if s = 405 then "405 Method Not Allowed."
  else detail.getD "Rate limit exceeded. Please wait before trying again."

/-- The `for (let i = 0; i <= retries; i++)` loop of the session-aware
`fetchWithRetry` (part_001 lines 71-134).  `fuel` is the number of
remaining iterations, `i` the loop counter, `k` the index of the next
handshake, `sess` the current session state.  Translated from the source,
in the source's order:

1. `if (response.status === 403)` and the body carries the session marker:
   clear `sessionInitialized`/`sessionToken`; then
   `if (i < retries) { await initSession(); continue; }` — note the
   `continue` re-enters the `for` loop, so the retried request runs with
   loop counter `i + 1`; with `i = retries` control falls through and the
   next check returns the 403 response (it is non-503 and `i === retries`).
2. `if (response.ok || (response.status !== 503 && i === retries)) return`.
3. `if (response.status === 503 && i < retries)`: status update, wait
   `RETRY_DELAY * (i + 1)`, continue.
4. `if (response.status === 405) throw ...` and
   `if (response.status === 429) throw ...`: both throws happen inside the
   `try`, so the `catch` below treats them like any non-abort error — on a
   non-final iteration it waits `RETRY_DELAY * (i + 1)` and retries; these
   branches are unreachable on the final iteration (step 2 returns first).
5. `return response`.
6. `catch`: `AbortError` becomes the timeout error on the final iteration;
   any other error becomes `Failed after retries+1 attempts` on the final
   iteration; otherwise: status update, wait `RETRY_DELAY * (i + 1)`,
   retry. -/
def fetchAux (oracle : Nat → Attempt) (hOr : Nat → Option String)
    (retries : Nat) : Nat → Nat → Nat → Sess → SvRet
| 0, _, _, sess => ⟨.undef, [], sess⟩
| fuel + 1, i, k, sess =>
  match oracle i with
  | .resp s marker detail =>
    if s = 403 ∧ marker = true then
      -- session expired: clear the cached session
      let sess1 : Sess := ⟨false, none⟩
      if i < retries then
        let sess2 := (initSession hOr k sess1).1
        let r := fetchAux oracle hOr retries fuel (i + 1) (k + 1) sess2
        ⟨r.out, Ev.fetched i :: Ev.handshake :: r.events, r.sess⟩
      else
        -- fall through: 403 is non-503 and i = retries, so return it
        ⟨.resp s, [Ev.fetched i], sess1⟩
    else if Main.respOk s ∨ (s ≠ 503 ∧ i = retries) then
      ⟨.resp s, [Ev.fetched i], sess⟩
    else if s = 503 ∧ i < retries then
      let r := fetchAux oracle hOr retries fuel (i + 1) k sess
      ⟨r.out, Ev.fetched i :: Ev.waited (RETRY_DELAY * (i + 1)) :: r.events, r.sess⟩
    else if s = 405 ∨ s = 429 then
      -- thrown inside `try`, handled by the catch clause
      if i = retries then
        ⟨.failedErr (retries + 1) (throwMsg s detail), [Ev.fetched i], sess⟩
      else
        let r := fetchAux oracle hOr retries fuel (i + 1) k sess
        ⟨r.out, Ev.fetched i :: Ev.waited (RETRY_DELAY * (i + 1)) :: r.events, r.sess⟩
    else ⟨.resp s, [Ev.fetched i], sess⟩
  | .abortErr =>
    if i = retries then ⟨.timeoutErr, [Ev.fetched i], sess⟩
    else
      let r := fetchAux oracle hOr retries fuel (i + 1) k sess
      ⟨r.out, Ev.fetched i :: Ev.waited (RETRY_DELAY * (i + 1)) :: r.events, r.sess⟩
  | .netErr msg =>
    if i = retries then ⟨.failedErr (retries + 1) msg, [Ev.fetched i], sess⟩
    else
      let r := fetchAux oracle hOr retries fuel (i + 1) k sess
      ⟨r.out, Ev.fetched i :: Ev.waited (RETRY_DELAY * (i + 1)) :: r.events, r.sess⟩

/-- `async function fetchWithRetry(url, options, retries = MAX_RETRIES)`
(part_001 lines 50-135): the `github.io` guard, then
`refreshSessionIfNeeded()` for non-`/get-session` URLs (a handshake when
the session is not initialized or has no token; its failure aborts the
call), then the retry loop. -/
def fetchWithRetry (oracle : Nat → Attempt) (hOr : Nat → Option String)
    (urlIsGithubPages isGetSessionUrl : Bool) (retries : Nat) (sess : Sess) :
    SvRet :=
  if urlIsGithubPages then
    ⟨.configErr "Cannot POST to GitHub Pages! Check API_BASE_URL configuration.",
     [], sess⟩
  else if isGetSessionUrl then
    fetchAux oracle hOr retries (retries + 1) 0 0 sess
  else if sess.sessionInitialized = true ∧ sess.sessionToken.isSome then
    fetchAux oracle hOr retries (retries + 1) 0 0 sess
  else
    let p := initSession hOr 0 sess
    if p.2 then
      let r := fetchAux oracle hOr retries (retries + 1) 0 1 p.1
      ⟨r.out, Ev.handshake :: r.events, r.sess⟩
    else ⟨.configErr "Session initialization failed", [Ev.handshake], p.1⟩

/-- The pairs (slot of the fetch before a handshake, slot of the fetch
after it) occurring in an event trace.  The claim that a 403 session
recovery "retries the same attempt slot" says every such pair is equal. -/
def recoveryPairs : List Ev → List (Nat × Nat)
| Ev.fetched i :: Ev.handshake :: Ev.fetched j :: rest =>
    (i, j) :: recoveryPairs rest
| _ :: rest => recoveryPairs rest
| [] => []

/-- The concrete C6 scenario: attempt 0 gets an HTTP 403 whose body carries
the session-expiry marker; attempt 1 gets HTTP 200. -/
def c6Oracle : Nat → Attempt := fun i =>
  if i = 0 then .resp 403 true (some "Invalid session") else .resp 200 false none

/-- Handshakes always succeed in the C6 scenario. -/
def c6HOr : Nat → Option String := fun _ => some "fresh-token"

/-- The run of the C6 scenario with an already-active session. -/
def c6Run : SvRet :=
  fetchWithRetry c6Oracle c6HOr false false MAX_RETRIES ⟨true, some "tok"⟩

/-- Counterexample to C6 as stated: in the session-aware variant, a 403
with a session-expiry marker on attempt 0 does clear the session and
re-run the handshake, but the `continue` re-enters the `for` loop, so the
retried request runs in attempt slot 1, not in the same slot 0: the
recovery consumes a numbered retry attempt.  The event trace is
`[fetched 0, handshake, fetched 1]` and its recovery pair is `(0, 1)` with
`0 ≠ 1`. -/
theorem c6_same_slot_counterexample :
    c6Oracle 0 = .resp 403 true (some "Invalid session") ∧
    c6Run.out = .resp 200 ∧
    c6Run.events = [.fetched 0, .handshake, .fetched 1] ∧
    recoveryPairs c6Run.events = [(0, 1)] ∧
    ¬ (∀ p ∈ recoveryPairs c6Run.events, p.1 = p.2) := by
  refine ⟨rfl, ?_, ?_, ?_, ?_⟩ <;> decide

/-- Claim C6 amended: on an HTTP 403 whose body carries the session-expiry
marker, the client clears the cached session (`sessionInitialized = false`,
`sessionToken = null`); if the current attempt is not the last
(`i < retries`) it re-runs the session handshake exactly once and retries
the request as the *next* numbered attempt (`i + 1`), with no backoff
wait — the recovery consumes a numbered retry attempt; on the last attempt
(`i = retries`) no handshake is run and the 403 response itself is
returned, with the session left cleared. -/
theorem c6_handshake_consumes_slot (oracle : Nat → Attempt)
    (hOr : Nat → Option String) (retries fuel i k : Nat) (sess : Sess)
    (d : Option String) (ho : oracle i = .resp 403 true d) :
    (i < retries →
      fetchAux oracle hOr retries (fuel + 1) i k sess =
        ⟨(fetchAux oracle hOr retries fuel (i + 1) (k + 1)
            (initSession hOr k ⟨false, none⟩).1).out,
         Ev.fetched i :: Ev.handshake ::
           (fetchAux oracle hOr retries fuel (i + 1) (k + 1)
             (initSession hOr k ⟨false, none⟩).1).events,
         (fetchAux oracle hOr retries fuel (i + 1) (k + 1)
           (initSession hOr k ⟨false, none⟩).1).sess⟩) ∧
    (i = retries →
      fetchAux oracle hOr retries (fuel + 1) i k sess =
        ⟨.resp 403, [Ev.fetched i], ⟨false, none⟩⟩) := by
  constructor
  · intro hlt
    simp [fetchAux, ho, hlt]
  · intro heq
    have hnlt : ¬ i < retries := by omega
    simp [fetchAux, ho, hnlt]

theorem c6_handshake_consumes_slot_witness :
    fetchAux c6Oracle c6HOr 3 4 0 0 ⟨true, some "tok"⟩ =
      ⟨(fetchAux c6Oracle c6HOr 3 3 1 1 (initSession c6HOr 0 ⟨false, none⟩).1).out,
       Ev.fetched 0 :: Ev.handshake ::
         (fetchAux c6Oracle c6HOr 3 3 1 1 (initSession c6HOr 0 ⟨false, none⟩).1).events,
       (fetchAux c6Oracle c6HOr 3 3 1 1 (initSession c6HOr 0 ⟨false, none⟩).1).sess⟩ :=
  (c6_handshake_consumes_slot c6Oracle c6HOr 3 3 0 0 ⟨true, some "tok"⟩
    (some "Invalid session") rfl).1 (by decide)

/-- The concrete C7 failing input: every attempt yields HTTP 429 with a
rate-limit detail in the body. -/
def c7Oracle : Nat → Attempt := fun _ => .resp 429 false (some "Too many requests")

/-- Claim C7 is contradicted by the code (code bug): the dedicated
`throw new Error(... rate limit ...)` for HTTP 429 sits inside the `try`
block, so the function's own `catch` intercepts it; on a non-final attempt
the call therefore backs off and retries instead of failing, and on the
final attempt the 429 response was already returned by the earlier
`response.ok || (status !== 503 && i === retries)` check.  Evaluating the
model on a stream of 429 responses with `retries = 3` and an active
session: the call performs three backoff waits and finally returns the 429
response — no rate-limit error ever reaches the caller. -/
theorem c7_429_retried_then_returned :
    fetchWithRetry c7Oracle c6HOr false false MAX_RETRIES ⟨true, some "tok"⟩ =
      ⟨.resp 429,
       [.fetched 0, .waited 3000, .fetched 1, .waited 6000,
        .fetched 2, .waited 9000, .fetched 3],
       ⟨true, some "tok"⟩⟩ := by
  decide

end Sv
